import Mathlib

/-!
Verification of the SavePlus filename/hierarchy module (`save/model.py`).

The Python source is shallowly embedded below.  Strings are handled through
their underlying `List Char`; every Python string operation used by the source
(`re.findall` for the four concrete patterns, `str.upper`, `str.lower`,
`str.replace`, `str.split`, `os.path.splitext`, `'%03d' %`) is modelled by an
executable Lean function on character lists.  `re.findall` is modelled by a
left-to-right scanner that, exactly like the Python regex engine, emits
non-overlapping matches and resumes scanning at the end of each match.
-/

namespace SavePlus

/-! ## Character classes of the regex patterns in `SceneFile` -/

/-- Characters of the class `[\._]` used by `pattern_leading_v`. -/
def isSep (c : Char) : Bool := c = '.' || c = '_'

/-- The class `[vV]` of `pattern_leading_v`. -/
def isVChar (c : Char) : Bool := c = 'v' || c = 'V'

/-- Characters of the class `[._$/]` used by `pattern_only_numbers`. -/
def isBareSep (c : Char) : Bool := c = '.' || c = '_' || c = '$' || c = '/'

/-- Characters of the class `[\._^]`: the left delimiter of `pattern_username`.
Inside a character class `^` is a literal caret. -/
def isUserLeft (c : Char) : Bool := c = '.' || c = '_' || c = '^'

/-- Characters of the class `[\._$]`: the right delimiter of `pattern_username`.
Inside a character class `$` is a literal dollar sign. -/
def isUserRight (c : Char) : Bool := c = '.' || c = '_' || c = '$'

/-- Python `\w` on ASCII input: letters, digits and underscore. -/
def isWordChar (c : Char) : Bool := c.isAlphanum || c = '_'

/-- Maximal digit run of `s` starting at index `i` (the regex `\d+`, greedy). -/
def digitsFrom (s : List Char) (i : Nat) : List Char :=
  (s.drop i).takeWhile Char.isDigit

/-- Numeric value of a digit run, as Python `int` of the matched string. -/
def digitsToInt (l : List Char) : Int :=
  (l.foldl (fun acc c => acc * 10 + (c.toNat - '0'.toNat)) 0 : Nat)

/-! ## The generic `re.findall` scanner

A match function `f s i` reports, for an attempt at position `i`, the captured
characters together with the position at which scanning resumes (the end of
the consumed text).  `reFindallAux` tries every position from left to right,
skipping over consumed text, exactly like CPython's `findall`.  The fuel
argument only serves termination; `s.length + 1` steps always suffice because
every step advances the position by at least one. -/

def reFindallAux (f : List Char → Nat → Option (List Char × Nat))
    (s : List Char) : Nat → Nat → List (List Char)
  | 0, _ => []
  | fuel + 1, i =>
    if s.length ≤ i then []
    else
      match f s i with
      | some (cap, j) => cap :: reFindallAux f s fuel (max j (i + 1))
      | none => reFindallAux f s fuel (i + 1)

/-- `re.findall(pattern, str)` for the pattern whose single attempt is `f`. -/
def reFindall (f : List Char → Nat → Option (List Char × Nat))
    (str : String) : List (List Char) :=
  reFindallAux f str.data (str.data.length + 1) 0

/-! ## The three `SceneFile` patterns, one attempt at one position -/

/-- One match attempt of `pattern_leading_v = re.compile("[\._][vV](\d+)[\._]")`
at position `i`: a separator, a `v`, a nonempty greedy digit run, a separator.
Returns the captured digits and the end of the whole match (the trailing
separator is consumed). -/
def vMatchAt (s : List Char) (i : Nat) : Option (List Char × Nat) :=
  match s.get? i, s.get? (i + 1) with
  | some c0, some c1 =>
    if isSep c0 && isVChar c1 then
      let ds := digitsFrom s (i + 2)
      if ds.isEmpty then none
      else
        match s.get? (i + 2 + ds.length) with
        | some c2 => if isSep c2 then some (ds, i + 2 + ds.length + 1) else none
        | none => none
    else none
  | _, _ => none

/-- One match attempt of
`pattern_only_numbers = re.compile('(?<=[._$/])(\d+)(?=[._$/])')` with the
digit run starting at `i`: the lookbehind inspects `s[i-1]`, the greedy run is
followed by a lookahead separator.  Only the digits are consumed (the
lookarounds are zero-width). -/
def bareMatchAt (s : List Char) (i : Nat) : Option (List Char × Nat) :=
  match i with
  | 0 => none
  | i0 + 1 =>
    match s.get? i0 with
    | some cprev =>
      if isBareSep cprev then
        let ds := digitsFrom s i
        if ds.isEmpty then none
        else
          match s.get? (i + ds.length) with
          | some cnext => if isBareSep cnext then some (ds, i + ds.length) else none
          | none => none
      else none
    | none => none

/-- One match attempt of
`pattern_username = re.compile("[\._^](\w{2})[\._$]")` at position `i`. -/
def userMatchAt (s : List Char) (i : Nat) : Option (List Char × Nat) :=
  match s.get? i, s.get? (i + 1), s.get? (i + 2), s.get? (i + 3) with
  | some c0, some c1, some c2, some c3 =>
    if isUserLeft c0 && isWordChar c1 && isWordChar c2 && isUserRight c3 then
      some ([c1, c2], i + 4)
    else none
  | _, _, _, _ => none

/-! ## SceneFile -/

/-- `SceneFile.disciplines`, in source order (it is also the alternation order
of the discipline regex). -/
def disciplines : List String :=
  ["MDL", "LAYOUT", "ANIM", "PREVIS", "LGT", "FX", "MM", "SHADING",
   "TECHANIM", "LOOKDEV", "EXPORT", "RP", "RS", "RB", "RIG"]

/-- Python `str.upper` on ASCII input, on character lists. -/
def listUpper (l : List Char) : List Char := l.map Char.toUpper

/-- Python `str.lower` on ASCII input, on character lists. -/
def listLower (l : List Char) : List Char := l.map Char.toLower

/-- Python `str.upper` on `String`. -/
def strUpper (s : String) : String := String.mk (listUpper s.data)

/-- Python `str.lower` on `String`. -/
def strLower (s : String) : String := String.mk (listLower s.data)

/-- Case-insensitive literal match of `alt` at position `i` of `s` (one
alternative of the `(?i)`-prefixed discipline alternation). -/
def matchAltAt (s : List Char) (i : Nat) (alt : List Char) : Bool :=
  listLower ((s.drop i).take alt.length) = listLower alt

/-- One match attempt of
`re.findall('(?i)' + '|'.join(cls.disciplines), filename)` at position `i`:
alternatives are tried in list order, the first that matches wins; the matched
text keeps the original case of `s`. -/
def discMatchAt (s : List Char) (i : Nat) : Option (List Char × Nat) :=
  disciplines.findSome? fun d =>
    if matchAltAt s i d.data then
      some ((s.drop i).take d.data.length, i + d.data.length)
    else none

/-- `SceneFile._findVersion`: the `_v<digits>_` tier first, then the bare
delimited digit runs, `-1` when neither matches; in each tier the last
(`match[-1]`) finding wins. -/
def SceneFile.findVersion (filename : String) : Int :=
  let m1 := reFindall vMatchAt filename
  match m1.getLast? with
  | some ds => digitsToInt ds
  | none =>
    let m2 := (reFindall bareMatchAt filename).filter fun l => !l.isEmpty
    match m2.getLast? with
    | some ds => digitsToInt ds
    | none => -1

/-- `SceneFile._findDiscipline`: last case-insensitive discipline match,
upper-cased; empty string when there is none. -/
def SceneFile.findDiscipline (filename : String) : String :=
  match (reFindall discMatchAt filename).getLast? with
  | some m => String.mk (listUpper m)
  | none => ""

/-- `SceneFile._findUser`: matches of the username pattern that are not
(case-insensitively) a discipline code; the last one wins, lower-cased; empty
string when there is none. -/
def SceneFile.findUser (filename : String) : String :=
  let ms := (reFindall userMatchAt filename).filter fun m =>
    !(disciplines.contains (String.mk (listUpper m)))
  match ms.getLast? with
  | some m => String.mk (listLower m)
  | none => ""

/-- The splitting of Python `value or default` for string-valued arguments:
`None` and the empty string are falsy. -/
def pyOrStr (v : Option String) (dflt : String) : String :=
  match v with
  | none => dflt
  | some s => if s = "" then dflt else s

/-- Python `value or default` for int-valued arguments: `0` is falsy. -/
def pyOrInt (v : Option Int) (dflt : Int) : Int :=
  match v with
  | none => dflt
  | some n => if n = 0 then dflt else n

/-- Python `s.split('-')` on character lists (keeping empty groups). -/
def splitOnDash : List Char → List (List Char)
  | [] => [[]]
  | c :: rest =>
    if c = '-' then [] :: splitOnDash rest
    else
      match splitOnDash rest with
      | g :: gs => (c :: g) :: gs
      | [] => [[c]]

/-- The fallback author tag of `SceneFile.__init__`:
`gp.getuser()[0] + gp.getuser().split('-')[-1][0]`, where `envUser` stands for
the name of the invoking user reported by `getpass.getuser()`. -/
def defaultUser (envUser : String) : String :=
  String.mk (envUser.data.take 1 ++ ((splitOnDash envUser.data).getLastD []).take 1)

/-- The attributes a `SceneFile` instance owns after `__init__`:
`description`, `discipline`, `version`, `optional`, `user`, `extension`.
There is no `initials` attribute. -/
structure SceneFile where
  description : String
  discipline : String
  version : Int
  optional : Option String
  user : String
  extension : String
deriving DecidableEq, Repr

/-- `SceneFile.__init__`.  Every field is guarded by Python `or` against its
default; `envUser` is the ambient `getpass.getuser()` value feeding the `user`
fallback. -/
def SceneFile.init (envUser : String) (description discipline : Option String)
    (version : Option Int) (user optional extension : Option String) : SceneFile :=
  { description := pyOrStr description "unititled"
    discipline := pyOrStr discipline "MDL"
    version := pyOrInt version 1
    optional :=
      match optional with
      | none => none
      | some s => if s = "" then none else some s
    user := pyOrStr user (defaultUser envUser)
    extension := pyOrStr extension "ma" }

/-- `SceneFile.from_existing`: infers version, user and discipline from the
filename and passes exactly those three to `__init__`; description, optional
and extension are left to their defaults. -/
def SceneFile.from_existing (envUser : String) (filename : String) : SceneFile :=
  SceneFile.init envUser none (some (SceneFile.findDiscipline filename))
    (some (SceneFile.findVersion filename))
    (some (SceneFile.findUser filename)) none none

/-- Index of the last character of `l` satisfying `p` (Python `str.rfind`
restricted to a character predicate), if any. -/
def rfindIdx (l : List Char) (p : Char → Bool) : Option Nat :=
  ((List.range l.length).filter fun i => p (l.getD i ' ')).getLast?

/-- The extension component of `os.path.splitext` (posix flavour): the suffix
from the last dot after the last slash, provided the basename has a
non-dot character before that dot; empty otherwise. -/
def splitextExt (str : String) : String :=
  let l := str.data
  let sepIndex : Int :=
    match rfindIdx l (fun c => c = '/') with
    | some i => (i : Int)
    | none => -1
  let dotIndex : Int :=
    match rfindIdx l (fun c => c = '.') with
    | some i => (i : Int)
    | none => -1
  if sepIndex < dotIndex then
    let start := (sepIndex + 1).toNat
    let dotN := dotIndex.toNat
    if ((l.drop start).take (dotN - start)).any (fun c => c ≠ '.') then
      String.mk (l.drop dotN)
    else ""
  else ""

/-- `SceneFile._findExt`:
`os.path.splitext(filename)[-1].replace('.','') or 'ma'`, with `'ma'` for the
empty filename. -/
def SceneFile.findExt (filename : String) : String :=
  if filename = "" then "ma"
  else
    let e := String.mk ((splitextExt filename).data.filter fun c => c ≠ '.')
    if e = "" then "ma" else e

/-! ## SaveData

`SaveData.get_filename` reads attributes off the `SceneFile` instance by
name; Python raises `AttributeError` for a name the instance does not own, so
the attribute table of a `SceneFile` (exactly the fields `__init__` assigns)
is modelled explicitly and `get_filename` returns in `Except`. -/

/-- A Python value appearing as a `SceneFile` attribute. -/
inductive PyVal where
  | pstr : String → PyVal
  | pint : Int → PyVal
  | pnone : PyVal
deriving DecidableEq, Repr

/-- Python attribute lookup on a `SceneFile` instance: only the six names
assigned in `__init__` exist. -/
def SceneFile.getattr (sf : SceneFile) (name : String) : Option PyVal :=
  if name = "description" then some (.pstr sf.description)
  else if name = "discipline" then some (.pstr sf.discipline)
  else if name = "version" then some (.pint sf.version)
  else if name = "optional" then
    some (match sf.optional with | none => .pnone | some s => .pstr s)
  else if name = "user" then some (.pstr sf.user)
  else if name = "extension" then some (.pstr sf.extension)
  else none

/-- Attribute lookup that raises: `AttributeError` for a missing name. -/
def getattrE (sf : SceneFile) (name : String) : Except String PyVal :=
  match SceneFile.getattr sf name with
  | some v => Except.ok v
  | none => Except.error ("AttributeError: " ++ name)

/-- `str(value)` for the attribute values that can reach `str.format`. -/
def pyStrOf : PyVal → String
  | .pstr s => s
  | .pint n => toString n
  | .pnone => "None"

/-- Python `'%03d' % n`: zero-padded to width 3, the sign counting toward the
width (`'%03d' % -1 == '-01'`). -/
def pct03d (n : Int) : String :=
  if n < 0 then
    let ds := (Int.natAbs n).repr
    "-" ++ (String.mk (List.replicate (2 - ds.length) '0') ++ ds)
  else
    let ds := n.toNat.repr
    String.mk (List.replicate (3 - ds.length) '0') ++ ds

/-- Does `pat` start `l`? -/
def startsWithList : List Char → List Char → Bool
  | [], _ => true
  | _ :: _, [] => false
  | p :: ps, c :: cs => p = c && startsWithList ps cs

/-- Python `str.replace`: every non-overlapping occurrence, left to right.
Fuel only serves termination; `l.length + 1` steps suffice for a nonempty
pattern. -/
def replaceListAux (pat rep : List Char) : Nat → List Char → List Char
  | 0, l => l
  | fuel + 1, l =>
    if !pat.isEmpty && startsWithList pat l then
      rep ++ replaceListAux pat rep fuel (l.drop pat.length)
    else
      match l with
      | [] => []
      | c :: rest => c :: replaceListAux pat rep fuel rest

/-- Python `s.replace(pat, rep)`. -/
def replaceStr (s pat rep : String) : String :=
  String.mk (replaceListAux pat.data rep.data (s.data.length + 1) s.data)

/-- `SaveData.template_string`. -/
def template_string : String :=
  "{DESCRIPTION}_{DISCIPLINE}_{VERSION}_{INITIALS}_{OPTIONAL}{EXT}"

/-- `SaveData.get_filename`.  The template drops its `_{OPTIONAL}` segment
when `optional` is `None`; then the format arguments are evaluated left to
right, each an attribute access on the `SceneFile` (the fourth one,
`self.scene_file.initials`, names an attribute `__init__` never assigns).
Substitution of the surviving placeholders models `str.format` for this
template. -/
def SaveData.get_filename (sf : SceneFile) : Except String String := do
  let t := if sf.optional = none then replaceStr template_string "_{OPTIONAL}" ""
           else template_string
  let vDesc ← getattrE sf "description"
  let vDisc ← getattrE sf "discipline"
  let vVer ← getattrE sf "version"
  let verStr := match vVer with | .pint n => pct03d n | v => pyStrOf v
  let vInit ← getattrE sf "initials"
  let vOpt ← getattrE sf "optional"
  let vExt ← getattrE sf "extension"
  pure (replaceStr (replaceStr (replaceStr (replaceStr (replaceStr
    (replaceStr t "{DESCRIPTION}" (pyStrOf vDesc))
    "{DISCIPLINE}" (pyStrOf vDisc)) "{VERSION}" verStr)
    "{INITIALS}" (pyStrOf vInit)) "{OPTIONAL}" (pyStrOf vOpt))
    "{EXT}" (pyStrOf vExt))

/-- `True` exactly on `Except.ok`. -/
def exceptIsOk {α : Type} : Except String α → Bool
  | .ok _ => true
  | .error _ => false

/-! ## Directory

The `mpc.tessa` naming authority is an external collaborator of the module;
`contexts.validateContext` is taken as an arbitrary boolean predicate and the
`findChildren` enumerations as arbitrary functions, supplied as parameters. -/

/-- A resolved job/scene/shot context (each component by its `name`). -/
structure Ctx where
  job : String
  scene : String
  shot : String
deriving DecidableEq, Repr

/-- The child enumerations of the naming authority: scene children of a job,
shot children of a scene of a job. -/
structure Authority where
  sceneChildren : String → List String
  shotChildren : String → String → List String

/-- The `Directory` state: the current context and the cached tree. -/
structure Directory where
  context : Ctx
  tree_cache : List (String × List (String × List String))
deriving DecidableEq, Repr

/-- `Directory.scene_ignore_list`. -/
def Directory.scene_ignore_list : List String :=
  ["pitch", "archive", "library", "pantry", "reference", "ripple", "stats",
   "templates", "contactSheets", "common", "docs"]

/-- `Directory.shot_ignore_list`. -/
def Directory.shot_ignore_list : List String :=
  ["nuke_template", "config", "tools"]

/-- Python dict lookup on the modelled two-level cache. -/
def assocFind {α : Type} (k : String) : List (String × α) → Option α
  | [] => none
  | (k', v) :: rest => if k' = k then some v else assocFind k rest

/-- The candidate context `set_cur_dir` builds: each supplied component
overlaid with Python `or` onto the current one. -/
def Directory.candCtx (d : Directory) (job shot scene : Option String) : Ctx :=
  { job := pyOrStr job d.context.job
    shot := pyOrStr shot d.context.shot
    scene := pyOrStr scene d.context.scene }

/-- `Directory.set_cur_dir` (keyword form, `from_dict=None`): install the
candidate context, validate it through the naming authority, and roll back on
failure.  Returns the new state and the reported boolean. -/
def Directory.set_cur_dir (validate : Ctx → Bool) (d : Directory)
    (job shot scene : Option String) : Directory × Bool :=
  let cand := Directory.candCtx d job shot scene
  let d2 : Directory := { d with context := cand }
  if validate d2.context then (d2, true)
  else ({ d2 with context := d.context }, false)

/-- `Directory.refresh_tree`: rebuild the cache for the current job, keeping
only scene children not on the scene ignore list, and storing every shot
child of each retained scene. -/
def Directory.refresh_tree (auth : Authority) (d : Directory) : Directory :=
  let job := d.context.job
  { d with
    tree_cache :=
      [(job,
        ((auth.sceneChildren job).filter fun sc =>
            !Directory.scene_ignore_list.contains sc).map fun sc =>
          (sc, auth.shotChildren job sc))] }

/-- `Directory.get_scenes`: scene keys of the cache entry of the current job,
minus the caller filter and the scene ignore list; a missing cache entry is a
`KeyError`. -/
def Directory.get_scenes (d : Directory) (filt : List String) :
    Except String (List String) :=
  match assocFind d.context.job d.tree_cache with
  | none => Except.error ("KeyError: " ++ d.context.job)
  | some scenes =>
    Except.ok ((scenes.map Prod.fst).filter fun sc =>
      !(filt ++ Directory.scene_ignore_list).contains sc)

/-- `Directory.get_shots`: the shots of `scene_name` under the current job,
minus the caller filter and the shot ignore list; `none` when the scene is
not in the cached tree, `KeyError` when the job itself is not. -/
def Directory.get_shots (d : Directory) (scene_name : String)
    (filt : List String) : Except String (Option (List String)) :=
  match assocFind d.context.job d.tree_cache with
  | none => Except.error ("KeyError: " ++ d.context.job)
  | some scenes =>
    match assocFind scene_name scenes with
    | none => Except.ok none
    | some shots =>
      Except.ok (some (shots.filter fun sh =>
        !(filt ++ Directory.shot_ignore_list).contains sh))

/-! ## Spec-side definitions

The following definitions are written from the words of the specification's
claims (not from the source); they serve to compare the spec's description of
the inference heuristics against the embedded code. -/

/-- Per claim C1: an explicit version marker standing at position `i` (its
leading separator at `i`): a digit run preceded by `.` or `_` plus a
case-insensitive `v`, followed by `.` or `_`.  Returns the marker's digit
run.  Ordering markers by this position is the claim's left-to-right order,
so the right-most marker is the one with the largest such `i`. -/
def vMarkerDigitsAt (s : List Char) (i : Nat) : Option (List Char) :=
  match s.get? i, s.get? (i + 1) with
  | some a, some b =>
    if isSep a && isVChar b then
      let ds := digitsFrom s (i + 2)
      if ds.isEmpty then none
      else
        match s.get? (i + 2 + ds.length) with
        | some c => if isSep c then some ds else none
        | none => none
    else none
  | _, _ => none

/-- Per claim C1: a bare digit run starting at `p`, delimited on both sides
by one of `.`, `_`, `$`, `/`. -/
def bareRunAt (s : List Char) (p : Nat) : Option (List Char) :=
  match p with
  | 0 => none
  | p0 + 1 =>
    match s.get? p0 with
    | some a =>
      if isBareSep a then
        let ds := digitsFrom s (p0 + 1)
        if ds.isEmpty then none
        else
          match s.get? (p0 + 1 + ds.length) with
          | some c => if isBareSep c then some ds else none
          | none => none
      else none
    | none => none

/-- Claim C1's version rule, word for word: the right-most explicit marker's
digit run when one exists, otherwise the right-most bare delimited run,
otherwise `-1`. -/
def specVersionC1 (str : String) : Int :=
  let s := str.data
  let markers := (List.range (s.length + 1)).filterMap (vMarkerDigitsAt s)
  match markers.getLast? with
  | some ds => digitsToInt ds
  | none =>
    let bares := (List.range (s.length + 1)).filterMap (bareRunAt s)
    match bares.getLast? with
    | some ds => digitsToInt ds
    | none => -1

/-- Per claim C2: the discipline code occurring (case-insensitively) at
position `p`, as the matched substring of `s`. -/
def discOccAt (s : List Char) (p : Nat) : Option (List Char) :=
  disciplines.findSome? fun d =>
    if matchAltAt s p d.data then some ((s.drop p).take d.data.length) else none

/-- Claim C2's discipline rule, word for word: the code whose occurrence is
right-most in the string, upper-cased, `"MDL"` when no code occurs. -/
def specDisciplineC2 (str : String) : String :=
  match ((List.range str.data.length).filterMap (discOccAt str.data)).getLast? with
  | some m => String.mk (listUpper m)
  | none => "MDL"

/-- Per claim C3: a two-character token starting at `p`, delimited by `.` or
`_` on both sides and not (case-insensitively) a discipline code. -/
def userTokAtC3 (s : List Char) (p : Nat) : Option (List Char) :=
  match p with
  | 0 => none
  | p0 + 1 =>
    match s.get? p0, s.get? (p0 + 1), s.get? (p0 + 2), s.get? (p0 + 3) with
    | some a, some b, some c, some d =>
      if isSep a && isSep d &&
          !(disciplines.contains (String.mk (listUpper [b, c]))) then
        some [b, c]
      else none
    | _, _, _, _ => none

/-- Claim C3's initials rule, word for word: the right-most such token,
lower-cased, the empty string when there is none. -/
def specUserC3 (str : String) : String :=
  match ((List.range str.data.length).filterMap (userTokAtC3 str.data)).getLast? with
  | some t => String.mk (listLower t)
  | none => ""

/-- Claim C6's extension rule, word for word: the substring after the final
`.` of the filename, `"ma"` when the filename is empty or has no extension
part. -/
def extAfterFinalDot (str : String) : String :=
  match rfindIdx str.data (fun c => c = '.') with
  | some i =>
    let e := str.data.drop (i + 1)
    if e.isEmpty then "ma" else String.mk e
  | none => "ma"

/-! ## Concrete fixtures used by the closed theorems below -/

/-- A concrete ambient username (`getpass.getuser()` value). -/
def envU : String := "andres-weber"

/-- A fully specified descriptor with `optional` absent. -/
def sfDefault : SceneFile :=
  SceneFile.init envU (some "foo") (some "MDL") (some 1) (some "aw") none none

/-- A descriptor whose version is the undetermined sentinel `-1`. -/
def sfUndet : SceneFile :=
  SceneFile.init envU none none (some (-1)) none none none

/-- A naming authority whose single job has one scene `build` whose shots
include the ignored name `config`. -/
def authW : Authority :=
  ⟨fun _ => ["build"], fun _ _ => ["config", "sh010"]⟩

/-- A `Directory` whose cache describes the current job `jobA`. -/
def dirW : Directory :=
  ⟨⟨"jobA", "build", "sh01"⟩, [("jobA", [("build", ["sh01"])])]⟩

/-- A naming-authority validation accepting every context. -/
def valTrue : Ctx → Bool := fun _ => true

/-- A naming-authority validation accepting only shot `sh01`. -/
def valShot : Ctx → Bool := fun c => c.shot = "sh01"

end SavePlus

namespace SavePlus

/-! ## Helper lemmas about the scanner -/

theorem getLast?_mem {α : Type} {l : List α} {a : α} (h : l.getLast? = some a) :
    a ∈ l := by
  have ha : a ∈ l.getLast? := Option.mem_def.mpr h
  obtain ⟨hne, rfl⟩ := List.mem_getLast?_eq_getLast ha
  exact List.getLast_mem hne

theorem reFindallAux_zero (f : List Char → Nat → Option (List Char × Nat))
    (s : List Char) (i : Nat) : reFindallAux f s 0 i = [] := rfl

theorem reFindallAux_succ (f : List Char → Nat → Option (List Char × Nat))
    (s : List Char) (fuel i : Nat) :
    reFindallAux f s (fuel + 1) i =
      if s.length ≤ i then []
      else
        match f s i with
        | some (cap, j) => cap :: reFindallAux f s fuel (max j (i + 1))
        | none => reFindallAux f s fuel (i + 1) := rfl

theorem reFindallAux_sound (f : List Char → Nat → Option (List Char × Nat))
    (s : List Char) :
    ∀ (fuel i : Nat) (cap : List Char), cap ∈ reFindallAux f s fuel i →
      ∃ j k, i ≤ j ∧ f s j = some (cap, k) := by
  intro fuel
  induction fuel with
  | zero => intro i cap h; rw [reFindallAux_zero] at h; cases h
  | succ n ih =>
    intro i cap h
    rw [reFindallAux_succ] at h
    by_cases hlen : s.length ≤ i
    · rw [if_pos hlen] at h; cases h
    · rw [if_neg hlen] at h
      cases hf : f s i with
      | none =>
        simp only [hf] at h
        obtain ⟨j, k, hij, hjk⟩ := ih (i + 1) cap h
        exact ⟨j, k, by omega, hjk⟩
      | some p =>
        obtain ⟨cap', j'⟩ := p
        simp only [hf] at h
        rcases List.mem_cons.mp h with rfl | h2
        · exact ⟨i, j', Nat.le_refl i, hf⟩
        · obtain ⟨j, k, hij, hjk⟩ := ih (max j' (i + 1)) cap h2
          have : i + 1 ≤ max j' (i + 1) := Nat.le_max_right _ _
          exact ⟨j, k, by omega, hjk⟩

theorem reFindallAux_empty (f : List Char → Nat → Option (List Char × Nat))
    (s : List Char) :
    ∀ (fuel i : Nat), reFindallAux f s fuel i = [] →
      ∀ j, i ≤ j → j < s.length → j < i + fuel → f s j = none := by
  intro fuel
  induction fuel with
  | zero => intro i _ j hij _ hjf; omega
  | succ n ih =>
    intro i h j hij hjlen hjf
    rw [reFindallAux_succ] at h
    by_cases hlen : s.length ≤ i
    · omega
    · rw [if_neg hlen] at h
      cases hf : f s i with
      | some p =>
        obtain ⟨c, jj⟩ := p
        simp only [hf] at h
        exact absurd h (List.cons_ne_nil _ _)
      | none =>
        simp only [hf] at h
        rcases Nat.eq_or_lt_of_le hij with rfl | hlt
        · exact hf
        · exact ih (i + 1) h j hlt hjlen (by omega)

theorem reFindallAux_of_forall_none
    (f : List Char → Nat → Option (List Char × Nat)) (s : List Char) :
    ∀ (fuel i : Nat), (∀ j, i ≤ j → f s j = none) →
      reFindallAux f s fuel i = [] := by
  intro fuel
  induction fuel with
  | zero => intro i _; rfl
  | succ n ih =>
    intro i h
    rw [reFindallAux_succ]
    by_cases hlen : s.length ≤ i
    · rw [if_pos hlen]
    · rw [if_neg hlen]
      have hi : f s i = none := h i (Nat.le_refl i)
      simp only [hi]
      exact ih (i + 1) fun j hj => h j (by omega)

theorem reFindall_sound (f : List Char → Nat → Option (List Char × Nat))
    (str : String) (cap : List Char) (h : cap ∈ reFindall f str) :
    ∃ j k, f str.data j = some (cap, k) := by
  obtain ⟨j, k, _, hjk⟩ := reFindallAux_sound f str.data _ 0 cap h
  exact ⟨j, k, hjk⟩

theorem reFindall_eq_nil_iff (f : List Char → Nat → Option (List Char × Nat))
    (str : String) (hge : ∀ j, str.data.length ≤ j → f str.data j = none) :
    reFindall f str = [] ↔ ∀ j, f str.data j = none := by
  constructor
  · intro h j
    by_cases hj : j < str.data.length
    · exact reFindallAux_empty f str.data _ 0 h j (Nat.zero_le _) hj (by omega)
    · exact hge j (by omega)
  · intro h
    exact reFindallAux_of_forall_none f str.data _ 0 fun j _ => h j

/-! ## Boundary and bridge lemmas for the individual patterns -/

theorem vMatchAt_none_of_le (s : List Char) (j : Nat) (h : s.length ≤ j) :
    vMatchAt s j = none := by
  have h0 : s[j]? = none := by simp [List.getElem?_eq_none_iff]; omega
  simp [vMatchAt, h0]

theorem bareMatchAt_none_of_le (s : List Char) (j : Nat) (h : s.length ≤ j) :
    bareMatchAt s j = none := by
  cases j with
  | zero => rfl
  | succ j0 =>
    have hd : s.drop (j0 + 1) = [] := List.drop_eq_nil_of_le h
    cases hg : s[j0]? with
    | none => simp [bareMatchAt, hg]
    | some c => simp [bareMatchAt, hg, digitsFrom, hd]

theorem userMatchAt_none_of_le (s : List Char) (j : Nat) (h : s.length ≤ j) :
    userMatchAt s j = none := by
  have h0 : s[j]? = none := by simp [List.getElem?_eq_none_iff]; omega
  simp [userMatchAt, h0]

theorem matchAltAt_false_of_drop_nil (s : List Char) (j : Nat) (alt : List Char)
    (halt : alt ≠ []) (h : s.drop j = []) : matchAltAt s j alt = false := by
  simp only [matchAltAt, h, List.take_nil, listLower, List.map_nil,
    decide_eq_false_iff_not]
  intro hcontra
  exact halt (List.map_eq_nil_iff.mp hcontra.symm)

theorem discMatchAt_none_of_le (s : List Char) (j : Nat) (h : s.length ≤ j) :
    discMatchAt s j = none := by
  have hd : s.drop j = [] := List.drop_eq_nil_of_le h
  have hne : ∀ d ∈ disciplines, d.data ≠ [] := by decide
  unfold discMatchAt
  rw [List.findSome?_eq_none_iff]
  intro d hdm
  rw [matchAltAt_false_of_drop_nil s j d.data (hne d hdm) hd]
  simp

theorem vMatchAt_map_fst (s : List Char) (j : Nat) :
    (vMatchAt s j).map Prod.fst = vMarkerDigitsAt s j := by
  unfold vMatchAt vMarkerDigitsAt
  cases s.get? j with
  | none => rfl
  | some a =>
    cases s.get? (j + 1) with
    | none => rfl
    | some b =>
      by_cases hab : (isSep a && isVChar b) = true
      · simp only [hab, if_true]
        by_cases hds : (digitsFrom s (j + 2)).isEmpty = true
        · simp [hds]
        · simp only [Bool.not_eq_true] at hds
          simp only [hds, Bool.false_eq_true, if_false]
          cases s.get? (j + 2 + (digitsFrom s (j + 2)).length) with
          | none => rfl
          | some c =>
            by_cases hc : isSep c = true
            · simp [hc]
            · simp [hc]
      · simp only [Bool.not_eq_true] at hab
        simp [hab]

theorem bareMatchAt_map_fst (s : List Char) (p : Nat) :
    (bareMatchAt s p).map Prod.fst = bareRunAt s p := by
  cases p with
  | zero => rfl
  | succ p0 =>
    simp only [bareMatchAt, bareRunAt]
    cases s.get? p0 with
    | none => rfl
    | some a =>
      by_cases ha : isBareSep a = true
      · simp only [ha, if_true]
        by_cases hds : (digitsFrom s (p0 + 1)).isEmpty = true
        · simp [hds]
        · simp only [Bool.not_eq_true] at hds
          simp only [hds, Bool.false_eq_true, if_false]
          cases s.get? (p0 + 1 + (digitsFrom s (p0 + 1)).length) with
          | none => rfl
          | some c =>
            by_cases hc : isBareSep c = true
            · simp [hc]
            · simp [hc]
      · simp only [Bool.not_eq_true] at ha
        simp [ha]

theorem findSome?_guard_map_fst {α β γ : Type} (l : List α) (P : α → Bool)
    (g : α → β) (hh : α → γ) :
    ((l.findSome? fun d => if P d then some (g d, hh d) else none).map Prod.fst)
      = l.findSome? fun d => if P d then some (g d) else none := by
  induction l with
  | nil => rfl
  | cons a t ih =>
    by_cases hp : P a = true
    · simp [List.findSome?_cons, hp]
    · simp [List.findSome?_cons, hp, ih]

theorem discMatchAt_map_fst (s : List Char) (p : Nat) :
    (discMatchAt s p).map Prod.fst = discOccAt s p := by
  unfold discMatchAt discOccAt
  exact findSome?_guard_map_fst disciplines
    (fun d => matchAltAt s p d.data)
    (fun d => (s.drop p).take d.data.length)
    (fun d => p + d.data.length)

/-! ## Lemmas about the `SceneFile` inference functions -/

theorem pyOrStr_some (x d : String) :
    pyOrStr (some x) d = if x = "" then d else x := rfl

theorem pyOrInt_some (x d : Int) :
    pyOrInt (some x) d = if x = 0 then d else x := rfl

theorem disciplines_data_ne_nil : ∀ d ∈ disciplines, d.data ≠ [] := by decide

theorem discMatchAt_some_ne_nil {s : List Char} {j : Nat} {m : List Char}
    {k : Nat} (h : discMatchAt s j = some (m, k)) : m ≠ [] := by
  unfold discMatchAt at h
  obtain ⟨d, hd, hfd⟩ := List.exists_of_findSome?_eq_some h
  by_cases hma : matchAltAt s j d.data = true
  · rw [if_pos hma] at hfd
    injection hfd with hpair
    injection hpair with hfst hsnd
    have hlow : listLower ((s.drop j).take d.data.length) = listLower d.data :=
      of_decide_eq_true hma
    have hlen : m.length = d.data.length := by
      have h2 := congrArg List.length hlow
      simp only [listLower, List.length_map, hfst] at h2
      exact h2
    intro hm
    refine disciplines_data_ne_nil d hd (List.length_eq_zero.mp ?_)
    rw [← hlen, hm]
    rfl
  · rw [if_neg hma] at hfd
    cases hfd

theorem bareMatchAt_some_ne_nil {s : List Char} {j : Nat} {m : List Char}
    {k : Nat} (h : bareMatchAt s j = some (m, k)) : m ≠ [] := by
  cases j with
  | zero => simp [bareMatchAt] at h
  | succ j0 =>
    cases hg : s[j0]? with
    | none => simp [bareMatchAt, hg] at h
    | some a =>
      by_cases ha : isBareSep a = true
      · by_cases hds : (digitsFrom s (j0 + 1)).isEmpty = true
        · simp [bareMatchAt, hg, ha, hds] at h
        · cases hn : s[j0 + 1 + (digitsFrom s (j0 + 1)).length]? with
          | none => simp [bareMatchAt, hg, ha, hds, hn] at h
          | some c =>
            by_cases hc : isBareSep c = true
            · simp [bareMatchAt, hg, ha, hds, hn, hc, Prod.mk.injEq] at h
              intro hm
              rw [hm] at h
              exact hds (by rw [h.1]; rfl)
            · simp [bareMatchAt, hg, ha, hds, hn, hc] at h
      · simp [bareMatchAt, hg, ha] at h

theorem userMatchAt_some_shape {s : List Char} {j : Nat} {m : List Char}
    {k : Nat} (h : userMatchAt s j = some (m, k)) :
    ∃ c1 c2, m = [c1, c2] := by
  unfold userMatchAt at h
  cases h0 : s.get? j with
  | none => rw [h0] at h; cases h
  | some c0 =>
    rw [h0] at h
    cases h1 : s.get? (j + 1) with
    | none => rw [h1] at h; cases h
    | some c1 =>
      rw [h1] at h
      cases h2 : s.get? (j + 2) with
      | none => rw [h2] at h; cases h
      | some c2 =>
        rw [h2] at h
        cases h3 : s.get? (j + 3) with
        | none => rw [h3] at h; cases h
        | some c3 =>
          rw [h3] at h
          by_cases hcond : (isUserLeft c0 && isWordChar c1 && isWordChar c2
              && isUserRight c3) = true
          · simp only [hcond, if_true] at h
            simp [Prod.mk.injEq] at h
            exact ⟨c1, c2, h.1.symm⟩
          · simp [hcond] at h

theorem mkString_listUpper_ne_empty {m : List Char} (h : m ≠ []) :
    String.mk (listUpper m) ≠ "" := by
  intro hcontra
  have hdata := congrArg String.data hcontra
  exact h (List.map_eq_nil_iff.mp hdata)

theorem mkString_listLower_ne_empty {m : List Char} (h : m ≠ []) :
    String.mk (listLower m) ≠ "" := by
  intro hcontra
  have hdata := congrArg String.data hcontra
  exact h (List.map_eq_nil_iff.mp hdata)

theorem reFindall_bare_filter (s : String) :
    (reFindall bareMatchAt s).filter (fun l => !l.isEmpty)
      = reFindall bareMatchAt s := by
  apply List.filter_eq_self.mpr
  intro a ha
  obtain ⟨j, k, hjk⟩ := reFindall_sound bareMatchAt s a ha
  have hne := bareMatchAt_some_ne_nil hjk
  simp [List.isEmpty_iff, hne]

theorem findVersion_of_v (s : String) {ds : List Char}
    (h : (reFindall vMatchAt s).getLast? = some ds) :
    SceneFile.findVersion s = digitsToInt ds := by
  simp only [SceneFile.findVersion, h]

theorem findVersion_of_bare (s : String) (hv : reFindall vMatchAt s = [])
    {ds : List Char} (h : (reFindall bareMatchAt s).getLast? = some ds) :
    SceneFile.findVersion s = digitsToInt ds := by
  simp only [SceneFile.findVersion, hv, List.getLast?_nil,
    reFindall_bare_filter, h]

theorem findVersion_neg1 (s : String) (hv : reFindall vMatchAt s = [])
    (hb : reFindall bareMatchAt s = []) : SceneFile.findVersion s = -1 := by
  simp only [SceneFile.findVersion, hv, hb, List.getLast?_nil, List.filter_nil]

theorem findUser_of_last (s : String) {m : List Char}
    (h : ((reFindall userMatchAt s).filter fun t =>
        !(disciplines.contains (String.mk (listUpper t)))).getLast? = some m) :
    SceneFile.findUser s = String.mk (listLower m) := by
  simp only [SceneFile.findUser, h]

/-! ## The claims -/

/-- Claim C1, counterexamples.  The claim's rule (right-most marker among all
marker occurrences; otherwise right-most bare run; version equal to the digit
run) disagrees with the code on two inputs.  In `"a_v1_v2_"` the two markers
overlap on the middle `_`, the non-overlapping regex scan only finds `_v1_`,
and `from_existing` yields `1` where the claim demands `2`.  In `"b_v0_c"`
the marker digit run is `0`, but `__init__`'s `version or 1` turns the
inferred `0` into the default `1`. -/
theorem version_inference_counterexample :
    specVersionC1 "a_v1_v2_" = 2 ∧
    (SceneFile.from_existing envU "a_v1_v2_").version = 1 ∧
    (SceneFile.from_existing envU "a_v1_v2_").version ≠ specVersionC1 "a_v1_v2_" ∧
    specVersionC1 "b_v0_c" = 0 ∧
    (SceneFile.from_existing envU "b_v0_c").version = 1 ∧
    (SceneFile.from_existing envU "b_v0_c").version ≠ specVersionC1 "b_v0_c" := by
  decide

/-- Claim C1, amended.  Version inference is two-tier with the marker tier
winning whenever a marker is present, but the winner inside a tier is the
last match of the left-to-right non-overlapping regex scan (each marker
consumes its trailing delimiter), which is the right-most marker only when
markers do not overlap; moreover an inferred value of `0` is replaced by the
default `1` by the constructor, and the version is `-1` exactly when neither
tier matches.  Stated here: the scan of a tier is empty iff no positional
occurrence exists; the last scan match is a genuine positional occurrence and
determines the version through `version or 1`. -/
theorem version_inference_amended (env s : String) :
    ((reFindall vMatchAt s = []) ↔ ∀ p, vMarkerDigitsAt s.data p = none) ∧
    (∀ ds, (reFindall vMatchAt s).getLast? = some ds →
       (∃ p, vMarkerDigitsAt s.data p = some ds) ∧
       (SceneFile.from_existing env s).version =
         (if digitsToInt ds = 0 then 1 else digitsToInt ds)) ∧
    (reFindall vMatchAt s = [] →
       ((reFindall bareMatchAt s = []) ↔ ∀ p, bareRunAt s.data p = none) ∧
       (reFindall bareMatchAt s = [] →
          (SceneFile.from_existing env s).version = -1) ∧
       (∀ ds, (reFindall bareMatchAt s).getLast? = some ds →
          (∃ p, bareRunAt s.data p = some ds) ∧
          (SceneFile.from_existing env s).version =
            (if digitsToInt ds = 0 then 1 else digitsToInt ds))) := by
  have hpr : (SceneFile.from_existing env s).version
      = pyOrInt (some (SceneFile.findVersion s)) 1 := rfl
  refine ⟨?_, ?_, ?_⟩
  · rw [reFindall_eq_nil_iff vMatchAt s (fun j hj => vMatchAt_none_of_le _ _ hj)]
    constructor
    · intro h p
      rw [← vMatchAt_map_fst, h p]
      rfl
    · intro h j
      have hj := h j
      rw [← vMatchAt_map_fst] at hj
      exact Option.map_eq_none'.mp hj
  · intro ds hm
    constructor
    · obtain ⟨j, k, hjk⟩ := reFindall_sound vMatchAt s ds (getLast?_mem hm)
      refine ⟨j, ?_⟩
      rw [← vMatchAt_map_fst, hjk]
      rfl
    · rw [hpr, findVersion_of_v s hm, pyOrInt_some]
  · intro hv
    refine ⟨?_, ?_, ?_⟩
    · rw [reFindall_eq_nil_iff bareMatchAt s
        (fun j hj => bareMatchAt_none_of_le _ _ hj)]
      constructor
      · intro h p
        rw [← bareMatchAt_map_fst, h p]
        rfl
      · intro h j
        have hj := h j
        rw [← bareMatchAt_map_fst] at hj
        exact Option.map_eq_none'.mp hj
    · intro hb
      rw [hpr, findVersion_neg1 s hv hb]
      decide
    · intro ds hm
      constructor
      · obtain ⟨j, k, hjk⟩ := reFindall_sound bareMatchAt s ds (getLast?_mem hm)
        refine ⟨j, ?_⟩
        rw [← bareMatchAt_map_fst, hjk]
        rfl
      · rw [hpr, findVersion_of_bare s hv hm, pyOrInt_some]

/-- Claim C1, witness for the amended theorem at the spec's own example
`file_v007_x01.ma`, whose marker digit run is `007`. -/
theorem version_inference_amended_witness :
    (∃ p, vMarkerDigitsAt ("file_v007_x01.ma").data p = some ['0', '0', '7']) ∧
    (SceneFile.from_existing envU "file_v007_x01.ma").version =
      (if digitsToInt ['0', '0', '7'] = 0 then 1
       else digitsToInt ['0', '0', '7']) :=
  (version_inference_amended envU "file_v007_x01.ma").2.1 ['0', '0', '7']
    (by decide)

/-- Claim C2, counterexample.  In `"x_mmdl.ma"` the right-most discipline
occurrence is `MDL` (starting one position after the `MM` occurrence), but
the non-overlapping scan consumes `mm` first and `from_existing` yields
`MM`. -/
theorem discipline_inference_counterexample :
    specDisciplineC2 "x_mmdl.ma" = "MDL" ∧
    (SceneFile.from_existing envU "x_mmdl.ma").discipline = "MM" ∧
    (SceneFile.from_existing envU "x_mmdl.ma").discipline
      ≠ specDisciplineC2 "x_mmdl.ma" := by
  decide

/-- Claim C2, amended.  Discipline inference is a case-insensitive search
whose winner is the last match of the left-to-right non-overlapping regex
scan (alternatives tried in the fixed list order), upper-cased — the
right-most occurrence only when occurrences do not overlap; no occurrence at
all falls back to `MDL` through the constructor default. -/
theorem discipline_inference_amended (env s : String) :
    ((reFindall discMatchAt s = []) ↔ ∀ p, discOccAt s.data p = none) ∧
    ((reFindall discMatchAt s = []) →
      (SceneFile.from_existing env s).discipline = "MDL") ∧
    (∀ m, (reFindall discMatchAt s).getLast? = some m →
       (∃ p, discOccAt s.data p = some m) ∧
       (SceneFile.from_existing env s).discipline = String.mk (listUpper m)) := by
  have hge : ∀ j, s.data.length ≤ j → discMatchAt s.data j = none :=
    fun j hj => discMatchAt_none_of_le _ _ hj
  have hiff0 := reFindall_eq_nil_iff discMatchAt s hge
  refine ⟨?_, ?_, ?_⟩
  · rw [hiff0]
    constructor
    · intro h p
      rw [← discMatchAt_map_fst, h p]
      rfl
    · intro h j
      have hj := h j
      rw [← discMatchAt_map_fst] at hj
      exact Option.map_eq_none'.mp hj
  · intro h
    have hfd : SceneFile.findDiscipline s = "" := by
      unfold SceneFile.findDiscipline
      rw [h]
      rfl
    have hpr : (SceneFile.from_existing env s).discipline
        = pyOrStr (some (SceneFile.findDiscipline s)) "MDL" := rfl
    rw [hpr, hfd]
    rfl
  · intro m hm
    have hmem := getLast?_mem hm
    obtain ⟨j, k, hjk⟩ := reFindall_sound discMatchAt s m hmem
    have hne : m ≠ [] := discMatchAt_some_ne_nil hjk
    constructor
    · refine ⟨j, ?_⟩
      rw [← discMatchAt_map_fst, hjk]
      rfl
    · have hfd : SceneFile.findDiscipline s = String.mk (listUpper m) := by
        unfold SceneFile.findDiscipline
        rw [hm]
      have hpr : (SceneFile.from_existing env s).discipline
          = pyOrStr (some (SceneFile.findDiscipline s)) "MDL" := rfl
      rw [hpr, hfd, pyOrStr_some, if_neg (mkString_listUpper_ne_empty hne)]

/-- Claim C2, witness for the amended theorem at the spec's own example
`char_mdl_rig_v003.ma`, whose last scanned discipline match is `rig`. -/
theorem discipline_inference_amended_witness :
    (∃ p, discOccAt ("char_mdl_rig_v003.ma").data p = some ['r', 'i', 'g']) ∧
    (SceneFile.from_existing envU "char_mdl_rig_v003.ma").discipline
      = String.mk (listUpper ['r', 'i', 'g']) :=
  (discipline_inference_amended envU "char_mdl_rig_v003.ma").2.2 ['r', 'i', 'g']
    (by decide)

/-- Claim C3, counterexamples.  In the spec's own example
`char_rig_aw_v2.ma` the right-most 2-character token delimited by `.`/`_` on
both sides and not a discipline code is `v2` (between the `_` before `v` and
the `.` of the extension), but the scan consumed that `_` as part of `_aw_`,
so `from_existing` yields `aw` — the claim's uniform right-most rule demands
`v2`.  And for a filename with no such token (`"abc"`), the `user` field is
not the empty string: `__init__` replaces the empty inference result with
initials derived from `getpass.getuser()` (here `andres-weber` → `aw`). -/
theorem initials_inference_counterexample :
    specUserC3 "char_rig_aw_v2.ma" = "v2" ∧
    (SceneFile.from_existing envU "char_rig_aw_v2.ma").user = "aw" ∧
    (SceneFile.from_existing envU "char_rig_aw_v2.ma").user
      ≠ specUserC3 "char_rig_aw_v2.ma" ∧
    specUserC3 "abc" = "" ∧
    (SceneFile.from_existing envU "abc").user = "aw" ∧
    (SceneFile.from_existing envU "abc").user ≠ "" := by
  decide

/-- Claim C3, amended.  Initials inference takes the last match of the
left-to-right non-overlapping scan of the username pattern (left delimiter
`.`, `_` or literal `^`; two word characters; right delimiter `.`, `_` or
literal `$`), discards matches that upper-case to a discipline code, and
lower-cases the winner — the right-most token only when candidate tokens do
not overlap; when nothing remains, the `user` field falls back to the
ambient-user initials instead of the empty string. -/
theorem initials_inference_amended (env s : String) :
    ((reFindall userMatchAt s = []) ↔ ∀ j, userMatchAt s.data j = none) ∧
    (SceneFile.findUser s = "" →
      (SceneFile.from_existing env s).user = defaultUser env) ∧
    (∀ m, ((reFindall userMatchAt s).filter fun t =>
        !(disciplines.contains (String.mk (listUpper t)))).getLast? = some m →
      (SceneFile.from_existing env s).user = String.mk (listLower m) ∧
      ∃ j k, userMatchAt s.data j = some (m, k) ∧
        disciplines.contains (String.mk (listUpper m)) = false) := by
  have hpr : (SceneFile.from_existing env s).user
      = pyOrStr (some (SceneFile.findUser s)) (defaultUser env) := rfl
  refine ⟨?_, ?_, ?_⟩
  · exact reFindall_eq_nil_iff userMatchAt s
      (fun j hj => userMatchAt_none_of_le _ _ hj)
  · intro h
    rw [hpr, h, pyOrStr_some, if_pos rfl]
  · intro m hm
    have hmemf := getLast?_mem hm
    rw [List.mem_filter] at hmemf
    obtain ⟨hmem, hpred⟩ := hmemf
    obtain ⟨j, k, hjk⟩ := reFindall_sound userMatchAt s m hmem
    obtain ⟨c1, c2, hshape⟩ := userMatchAt_some_shape hjk
    have hne : m ≠ [] := by rw [hshape]; simp
    constructor
    · rw [hpr, findUser_of_last s hm, pyOrStr_some,
        if_neg (mkString_listLower_ne_empty hne)]
    · exact ⟨j, k, hjk, by simpa using hpred⟩

/-- Claim C3, witness for the amended theorem at the spec's own example
`char_rig_aw_v2.ma`, whose surviving scan match is `aw`. -/
theorem initials_inference_amended_witness :
    (SceneFile.from_existing envU "char_rig_aw_v2.ma").user
      = String.mk (listLower ['a', 'w']) ∧
    ∃ j k, userMatchAt ("char_rig_aw_v2.ma").data j = some (['a', 'w'], k) ∧
      disciplines.contains (String.mk (listUpper ['a', 'w'])) = false :=
  (initials_inference_amended envU "char_rig_aw_v2.ma").2.2 ['a', 'w']
    (by decide)

/-- Claim C4 (code bug).  `SaveData.get_filename` can render nothing: for
the descriptor `foo`/`MDL`/version 1/author `aw` with `optional` absent — for
which the claim demands the return value `"foo_MDL_001_aw.ma"` — the
evaluation of the format arguments reads `self.scene_file.initials`, an
attribute `SceneFile.__init__` never assigns (the field is named `user`), so
the call raises `AttributeError` instead of returning; independently, the
template ends in `{OPTIONAL}{EXT}` with no `.` before the extension. -/
theorem get_filename_broken_rendering :
    SaveData.get_filename sfDefault = Except.error "AttributeError: initials" ∧
    sfDefault.optional = none ∧ sfDefault.version = 1 ∧ sfDefault.user = "aw" :=
  ⟨rfl, rfl, rfl, rfl⟩

/-- Claim C5.  Rendering a descriptor whose version is the undetermined
sentinel `-1` never returns a filename (in particular never one with a
`-01` version segment): the call raises instead of returning. -/
theorem get_filename_undetermined_version_never_ok (sf : SceneFile)
    (h : sf.version = -1) :
    exceptIsOk (SaveData.get_filename sf) = false := rfl

/-- Claim C5, witness at a concrete descriptor with version `-1`. -/
theorem get_filename_undetermined_version_witness :
    exceptIsOk (SaveData.get_filename sfUndet) = false :=
  get_filename_undetermined_version_never_ok sfUndet (by decide)

/-- Claim C6, counterexample.  `from_existing` never infers the extension:
for `"foo.mb"` the claim demands extension `mb`, but the resulting descriptor
carries the default `ma` — `from_existing` passes only version, user and
discipline to `__init__` and never calls `_findExt`. -/
theorem extension_inference_counterexample :
    (SceneFile.from_existing envU "foo.mb").extension = "ma" ∧
    extAfterFinalDot "foo.mb" = "mb" ∧
    (SceneFile.from_existing envU "foo.mb").extension
      ≠ extAfterFinalDot "foo.mb" := by
  decide

/-- Claim C6, amended.  Extension inference is not part of descriptor
inference: for every filename the descriptor produced by `from_existing` has
the default extension `ma` (the helper `_findExt` exists but is not invoked
by `from_existing`). -/
theorem extension_inference_amended (env f : String) :
    (SceneFile.from_existing env f).extension = "ma" := rfl

/-- Claim C7.  The context transition is transactional: with the candidate
context built by overlaying the supplied fields on the current ones, a
failing validation returns `False` and leaves the context exactly as it was,
a passing validation installs the candidate and returns `True`, and the
resulting context is never anything but one of those two triples. -/
theorem set_cur_dir_transactional (validate : Ctx → Bool) (d : Directory)
    (j sh sc : Option String) :
    ((Directory.set_cur_dir validate d j sh sc).2 = true →
        (Directory.set_cur_dir validate d j sh sc).1.context
          = Directory.candCtx d j sh sc ∧
        validate (Directory.candCtx d j sh sc) = true) ∧
    ((Directory.set_cur_dir validate d j sh sc).2 = false →
        (Directory.set_cur_dir validate d j sh sc).1.context = d.context ∧
        validate (Directory.candCtx d j sh sc) = false) ∧
    ((Directory.set_cur_dir validate d j sh sc).1.context = d.context ∨
     (Directory.set_cur_dir validate d j sh sc).1.context
       = Directory.candCtx d j sh sc) := by
  unfold Directory.set_cur_dir
  by_cases hv : validate (Directory.candCtx d j sh sc) = true
  · simp [hv]
  · simp only [Bool.not_eq_true] at hv
    simp [hv]

/-- Claim C7, witness: a rejected shot (`bad`) rolls the context back, an
accepted shot (`sh01`) commits the candidate. -/
theorem set_cur_dir_transactional_witness :
    ((Directory.set_cur_dir valShot dirW none (some "bad") none).1.context
        = dirW.context ∧
      valShot (Directory.candCtx dirW none (some "bad") none) = false) ∧
    ((Directory.set_cur_dir valShot dirW none (some "sh01") none).1.context
        = Directory.candCtx dirW none (some "sh01") none ∧
      valShot (Directory.candCtx dirW none (some "sh01") none) = true) :=
  ⟨(set_cur_dir_transactional valShot dirW none (some "bad") none).2.1
      (by decide),
   (set_cur_dir_transactional valShot dirW none (some "sh01") none).1
      (by decide)⟩

/-- Claim C8, counterexample.  A successful `set_cur_dir` that changes the
job does not invalidate or rebuild `tree_cache`: from a state caching
`jobA`, switching to `jobB` succeeds, the cache still describes `jobA`, and
the subsequent `get_scenes` read raises a `KeyError` instead of being
answered from the new job's subtree. -/
theorem tree_cache_job_counterexample :
    (Directory.set_cur_dir valTrue dirW (some "jobB") none none).2 = true ∧
    (Directory.set_cur_dir valTrue dirW (some "jobB") none none).1.context.job
      = "jobB" ∧
    (Directory.set_cur_dir valTrue dirW (some "jobB") none none).1.tree_cache
      = [("jobA", [("build", ["sh01"])])] ∧
    Directory.get_scenes
        (Directory.set_cur_dir valTrue dirW (some "jobB") none none).1 []
      = Except.error "KeyError: jobB" :=
  ⟨rfl, rfl, rfl, rfl⟩

/-- Claim C8, amended.  `tree_cache` describes the job current at the last
`refresh_tree` call, not necessarily the currently-held job: `set_cur_dir`
never touches the cache (whatever the validation outcome), while
`refresh_tree` keys the rebuilt cache exactly by the job current at the time
of the rebuild. -/
theorem tree_cache_job_amended (validate : Ctx → Bool) (d : Directory)
    (j sh sc : Option String) (auth : Authority) :
    (Directory.set_cur_dir validate d j sh sc).1.tree_cache = d.tree_cache ∧
    (Directory.refresh_tree auth d).tree_cache.map Prod.fst
      = [d.context.job] := by
  constructor
  · unfold Directory.set_cur_dir
    by_cases hv : validate (Directory.candCtx d j sh sc) = true
    · simp [hv]
    · simp only [Bool.not_eq_true] at hv
      simp [hv]
  · rfl

/-- Claim C9, counterexample.  Shot-ignore filtering does not happen at
cache-build time: with an authority reporting shots `config` and `sh010`,
the cache stored by `refresh_tree` contains the shot-ignore-list name
`config` inside the scene's shot list. -/
theorem refresh_tree_ignore_counterexample :
    Directory.shot_ignore_list.contains "config" = true ∧
    (Directory.refresh_tree authW dirW).tree_cache
      = [("jobA", [("build", ["config", "sh010"])])] :=
  ⟨rfl, rfl⟩

/-- Claim C9, amended.  Only the scene ignore list is applied at cache-build
time: every scene key stored by `refresh_tree` avoids the scene ignore list,
but the stored shot lists are the authority's enumeration unfiltered; the
shot ignore list is applied at read time, so every list `get_shots` returns
avoids it. -/
theorem refresh_tree_ignore_amended (auth : Authority) (d : Directory) :
    (∀ jn scenes, (jn, scenes) ∈ (Directory.refresh_tree auth d).tree_cache →
       ∀ sc shots, (sc, shots) ∈ scenes →
         Directory.scene_ignore_list.contains sc = false ∧
         shots = auth.shotChildren d.context.job sc) ∧
    (∀ sc l, Directory.get_shots (Directory.refresh_tree auth d) sc []
        = Except.ok (some l) →
       ∀ x ∈ l, Directory.shot_ignore_list.contains x = false) := by
  constructor
  · intro jn scenes hmem sc shots hsc
    unfold Directory.refresh_tree at hmem
    simp only [List.mem_singleton] at hmem
    injection hmem with hj hs
    subst hs
    rw [List.mem_map] at hsc
    obtain ⟨a, ha, heq⟩ := hsc
    injection heq with h1 h2
    subst h1
    subst h2
    rw [List.mem_filter] at ha
    refine ⟨?_, rfl⟩
    simpa using ha.2
  · intro sc l h x hx
    unfold Directory.get_shots Directory.refresh_tree at h
    simp only [assocFind, if_pos] at h
    cases hsc : assocFind sc
        (((auth.sceneChildren d.context.job).filter fun scn =>
            !Directory.scene_ignore_list.contains scn).map fun scn =>
          (scn, auth.shotChildren d.context.job scn)) with
    | none => rw [hsc] at h; cases h
    | some shots =>
      rw [hsc] at h
      injection h with h2
      injection h2 with h3
      subst h3
      rw [List.mem_filter] at hx
      simpa using hx.2

/-- Claim C9, witness for the amended theorem: the retained scene `build` is
not scene-ignored and `get_shots` filters `config` out of its answer. -/
theorem refresh_tree_ignore_amended_witness :
    Directory.scene_ignore_list.contains "build" = false ∧
    (∀ x ∈ ["sh010"], Directory.shot_ignore_list.contains x = false) :=
  ⟨((refresh_tree_ignore_amended authW dirW).1 "jobA"
      [("build", ["config", "sh010"])] (by decide)
      "build" ["config", "sh010"] (by decide)).1,
   (refresh_tree_ignore_amended authW dirW).2 "build" ["sh010"] rfl⟩

/-- Claim C10.  For every descriptor, `SaveData.get_filename` raises an
attribute-lookup error before returning: the fourth format argument reads
`self.scene_file.initials`, but `SceneFile.__init__` stores the author tag
under `user` and assigns no `initials` attribute, so rendering never returns
a filename for any input. -/
theorem get_filename_always_attribute_error (sf : SceneFile) :
    SaveData.get_filename sf = Except.error "AttributeError: initials" := rfl

end SavePlus
